import Mathlib

/-!
# Verification of the adnet-agent event-chain batching and settlement engine

Shallow embedding of the publisher-side adnet agent (src/index.mjs, per-domain
disk-persisted variant; src/blockchain.mjs; and the signature/reach variant of
the agent kept alongside it).  Machine integers are modelled as `Nat`/`Int`,
JavaScript strings as `String`, absent/null values as `Option`, and the
SHA-256 hex digest as an abstract function parameter (`HashModel`): every
property proved here holds for an arbitrary digest function, which is exactly
the strength of the chain-linkage and settlement logic in the source.
-/

/-- One user action, as constructed by the `/record` route
(src/index.mjs `router.post('/record')`; the richer variant also carries
`verified` and `notabotScore`, which the settlement and reach logic read). -/
structure Event where
  campaignId : String
  promotionId : String
  type : String            -- "view" | "click", validated at the boundary
  userAddress : Option String
  verified : Bool
  notabotScore : Int
  timestamp : String
  deriving DecidableEq, Repr

/-- Event plus chain-linkage fields, as built by `addEventToChain`
(src/index.mjs lines 578-603): the JS object spreads the event and adds
`hash`, `previousHash` and `chainIndex`. -/
structure ChainedEvent where
  ev : Event
  hash : String
  previousHash : String
  chainIndex : Nat
  deriving DecidableEq, Repr

instance : Inhabited ChainedEvent :=
  ⟨⟨⟨"", "", "", none, false, 0, ""⟩, "", "", 0⟩⟩

/-- The all-zero genesis constant used to initialise `lastHash`
(src/index.mjs `getDomainFiles`, lines 461-476). -/
def genesisHash : String :=
  "0000000000000000000000000000000000000000000000000000000000000000"

/-- Per-tenant mutable state held in `domainStates`
(src/index.mjs `getDomainState`, lines 494-509). -/
structure DomainState where
  eventChain : List ChainedEvent
  lastHash : String
  flushCount : Nat
  deriving DecidableEq, Repr

/-- State of a freshly initialised tenant, as written by `getDomainFiles`
and loaded by `getDomainState`. -/
def initialDomainState : DomainState :=
  { eventChain := [], lastHash := genesisHash, flushCount := 0 }

/-- Abstract model of the digest function used by the agent:
`hashEvent` models `sha256hex(JSON.stringify({...event, previousHash}))`
(src/index.mjs lines 567-573) and `clockDigest` models
`sha256hex(Date.now().toString())` (src/index.mjs line 755). -/
structure HashModel where
  hashEvent : Event → String → String
  clockDigest : Nat → String

/-- The pure chain-extension step of `addEventToChain`
(src/index.mjs lines 578-593, before the threshold check): hash the event
against the current tail, append the chained event, advance the tail. -/
def appendEvent (hm : HashModel) (s : DomainState) (e : Event) :
    DomainState × ChainedEvent :=
  let hash := hm.hashEvent e s.lastHash
  let c : ChainedEvent :=
    { ev := e, hash := hash, previousHash := s.lastHash,
      chainIndex := s.eventChain.length }
  ({ s with eventChain := s.eventChain ++ [c], lastHash := hash }, c)

/-- Append a whole sequence of events to a fresh tenant with no intervening
flush. -/
def appendAll (hm : HashModel) (events : List Event) : DomainState :=
  events.foldl (fun s e => (appendEvent hm s e).1) initialDomainState

/-- `linkedFrom prev chain` : each entry's `previousHash` commits to the hash
of the entry before it, the head committing to `prev`. -/
def linkedFrom (prev : String) : List ChainedEvent → Prop
  | [] => True
  | c :: rest => c.previousHash = prev ∧ linkedFrom c.hash rest

/-- The hash a further append would commit to: the hash of the last entry,
or `prev` for an empty segment. -/
def tailHashOf (prev : String) : List ChainedEvent → String
  | [] => prev
  | c :: rest => tailHashOf c.hash rest

/-- Immutable summary of one completed settlement partition, pushed onto the
tenant's history by `recordFlushHistory` (src/index.mjs lines 546-555). -/
structure BatchRecord where
  timestamp : String
  campaignId : String
  eventCount : Nat
  views : Nat
  clicks : Nat
  ipfsHash : Option String
  ipfsUrl : Option String
  success : Bool
  deriving DecidableEq, Repr

/-- Per-tenant flush history file (src/index.mjs `getDomainFiles`,
lines 479-486). -/
structure History where
  flushes : List BatchRecord
  totalEvents : Nat
  totalViews : Nat
  totalClicks : Nat
  deriving DecidableEq, Repr

/-- History of a freshly initialised tenant. -/
def initialHistory : History :=
  { flushes := [], totalEvents := 0, totalViews := 0, totalClicks := 0 }

/-- Per-partition flush outcome built inside `flushEvents`
(src/index.mjs lines 703-710, with `txHash`/`blockNumber` added at 732-733). -/
structure FlushResult where
  campaignId : String
  events : List ChainedEvent
  success : Bool
  ipfsHash : Option String
  ipfsUrl : Option String
  error : Option String
  txHash : Option String
  blockNumber : Option Nat
  deriving DecidableEq, Repr

/-- The record pushed by `recordFlushHistory` (src/index.mjs lines 546-555):
views and clicks are recounted from the partition's events. -/
def mkBatchRecord (ts : String) (fr : FlushResult) : BatchRecord :=
  { timestamp := ts
    campaignId := fr.campaignId
    eventCount := fr.events.length
    views := (fr.events.filter (fun e => e.ev.type == "view")).length
    clicks := (fr.events.filter (fun e => e.ev.type == "click")).length
    ipfsHash := fr.ipfsHash
    ipfsUrl := fr.ipfsUrl
    success := fr.success }

/-- `recordFlushHistory` (src/index.mjs lines 539-562): append one record and
bump the aggregate counters. -/
def recordFlushHistory (h : History) (ts : String) (fr : FlushResult) : History :=
  let r := mkBatchRecord ts fr
  { flushes := h.flushes ++ [r]
    totalEvents := h.totalEvents + r.eventCount
    totalViews := h.totalViews + r.views
    totalClicks := h.totalClicks + r.clicks }

/-- A campaign as cached from the factory (`campaignsCache`); `flushEvents`
looks it up by `c.id === campaignId || c.campaignId === campaignId`
(src/index.mjs line 717). -/
structure Campaign where
  id : String
  campaignId : Option String
  contractAddress : Option String
  deriving DecidableEq, Repr

/-- Result of a successful IPFS upload (src/index.mjs `uploadToIPFS`,
lines 629-633); `none` models the null returned on any upload failure. -/
structure IpfsResult where
  hash : String
  url : String
  deriving DecidableEq, Repr

/-- Confirmed contract transaction (src/blockchain.mjs lines 119-127). -/
structure TxResult where
  txHash : String
  blockNumber : Nat
  deriving DecidableEq, Repr

/-- JavaScript value flowing into `_formatBytes32`: the parameter is typed as
a hash string, but the caller can (and does) bind a number to it. -/
inductive JSVal where
  | str : String → JSVal
  | num : Nat → JSVal
  deriving DecidableEq, Repr

/-- JS truthiness of the values `_formatBytes32` can receive:
`''` and `0` are falsy. -/
def JSVal.falsy : JSVal → Bool
  | .str s => s == ""
  | .num n => n == 0

/-- JS truthiness of an optional string (`null`/`undefined` and `''` falsy). -/
def optTruthy : Option String → Bool
  | none => false
  | some s => s != ""

/-- Core of `_formatBytes32` on character lists (src/blockchain.mjs
lines 150-151): strip a leading `0x`, truncate to 64 hex digits, right-pad
with `'0'` to exactly 64. -/
def padBytes32 (cs : List Char) : List Char :=
  let clean := if cs.take 2 = ['0', 'x'] then cs.drop 2 else cs
  let t := clean.take 64
  t ++ List.replicate (64 - t.length) '0'

/-- `_formatBytes32` on its documented input domain, a hash string or an
absent value (src/blockchain.mjs lines 146-152). -/
def formatBytes32Str : Option String → String
  | none => "0x" ++ genesisHash
  | some s =>
    if s = "" then "0x" ++ genesisHash     -- '' is falsy: the `!hash` branch
    else "0x" ++ String.mk (padBytes32 s.toList)

/-- `_formatBytes32` under actual JavaScript semantics: a non-zero number is
truthy, so the `!hash` guard is passed and `hash.startsWith('0x')` raises a
TypeError (numbers have no `startsWith`). -/
def formatBytes32J : JSVal → Except String String
  | v =>
    if v.falsy then .ok ("0x" ++ genesisHash)
    else match v with
      | .str s => .ok ("0x" ++ String.mk (padBytes32 s.toList))
      | .num _ => .error "TypeError: hash.startsWith is not a function"

/-- Positional binding of the call
`blockchainService.submitBatch(contractAddress, ipfsResult.hash, views,
clicks, events.length /* reach */, state.lastHash)` (src/index.mjs
lines 721-728) onto the five declared parameters of `submitBatch`
(src/blockchain.mjs line 83): JavaScript drops the sixth argument, so the
parameter documented as "Last hash in the chain" receives the reach count
and `state.lastHash` is discarded. -/
structure SubmitCall where
  contractAddress : String
  ipfsCID : String
  impressions : Nat
  clicks : Nat
  lastHashParam : JSVal
  deriving DecidableEq, Repr

/-- Environment of one flush: campaign cache, gateway switch, and the
outcomes of the external systems (IPFS per campaign, the chain for a
formatted submission), plus the wall clock. -/
structure Env where
  campaignsCache : List Campaign
  enabled : Bool
  ipfs : String → Option IpfsResult
  tx : SubmitCall → Option TxResult
  now : Nat
  nowIso : String

/-- `submitBatch` (src/blockchain.mjs lines 83-140): null when disabled or
without contract address; otherwise format the hash parameter — a thrown
TypeError is caught and also yields null — and submit. -/
def submitBatchModel (env : Env) (call : SubmitCall) : Option TxResult :=
  if !env.enabled then none
  else if call.contractAddress = "" then none
  else
    match formatBytes32J call.lastHashParam with
    | .error _ => none                      -- caught by the try/catch
    | .ok _ => env.tx call

/-- One step of the `eventsByCampaign` grouping (src/index.mjs lines 654-660):
push onto the existing bucket, or create one in first-occurrence order. -/
def addToGroups (groups : List (String × List ChainedEvent)) (c : ChainedEvent) :
    List (String × List ChainedEvent) :=
  if groups.any (fun g => g.1 == c.ev.campaignId) then
    groups.map (fun g => if g.1 == c.ev.campaignId then (g.1, g.2 ++ [c]) else g)
  else groups ++ [(c.ev.campaignId, [c])]

/-- Partition the drained segment by `campaignId`
(src/index.mjs lines 653-660). -/
def groupByCampaign (l : List ChainedEvent) : List (String × List ChainedEvent) :=
  l.foldl addToGroups []

/-- Settle one campaign partition (src/index.mjs lines 664-746): count views
and clicks, upload, and — when the campaign has a contract address and the
gateway is enabled — submit to the contract. Returns the flush result and
the contract call made, if any. -/
def flushPartition (env : Env) (cid : String) (evs : List ChainedEvent) :
    FlushResult × Option SubmitCall :=
  let views := (evs.filter (fun e => e.ev.type == "view")).length
  let clicks := (evs.filter (fun e => e.ev.type == "click")).length
  match env.ipfs cid with
  | none =>
    ({ campaignId := cid, events := evs, success := false, ipfsHash := none,
       ipfsUrl := none, error := some "IPFS unavailable", txHash := none,
       blockNumber := none }, none)
  | some r =>
    let base : FlushResult :=
      { campaignId := cid, events := evs, success := true,
        ipfsHash := some r.hash, ipfsUrl := some r.url, error := none,
        txHash := none, blockNumber := none }
    let campaign := env.campaignsCache.find?
      (fun c => c.id == cid || c.campaignId == some cid)
    match campaign.bind (fun c => c.contractAddress) with
    | some addr =>
      if addr != "" && env.enabled then
        -- index.mjs passes six arguments here; the sixth (state.lastHash)
        -- is dropped by the five-parameter submitBatch, whose lastHash
        -- parameter receives `events.length` (the reach count).
        let call : SubmitCall :=
          { contractAddress := addr, ipfsCID := r.hash, impressions := views,
            clicks := clicks, lastHashParam := JSVal.num evs.length }
        match submitBatchModel env call with
        | some t =>
          ({ base with txHash := some t.txHash,
                       blockNumber := some t.blockNumber }, some call)
        | none => (base, some call)
      else (base, none)
    | none => (base, none)

/-- Full per-tenant state: the in-memory `domainStates` entry, the on-disk
snapshot written by `saveDomainState`, and the history file. -/
structure FullState where
  mem : DomainState
  disk : DomainState
  history : History
  deriving DecidableEq, Repr

/-- Full state of a freshly initialised tenant. -/
def initialFullState : FullState :=
  { mem := initialDomainState, disk := initialDomainState,
    history := initialHistory }

/-- `flushEvents` (src/index.mjs lines 643-759): no-op on an empty chain;
otherwise partition by campaign, settle each partition, record one history
entry per partition, then clear the chain, derive a fresh tail hash from the
wall clock, bump `flushCount` and persist. Also returns the per-partition
results and the contract calls that were made. -/
def flushEvents (hm : HashModel) (env : Env) (st : FullState) :
    FullState × List FlushResult × List SubmitCall :=
  if st.mem.eventChain.length == 0 then (st, [], [])
  else
    let groups := groupByCampaign st.mem.eventChain
    let settled := groups.map (fun g => flushPartition env g.1 g.2)
    let frs := settled.map Prod.fst
    let calls := settled.filterMap Prod.snd
    let history' := frs.foldl (fun h fr => recordFlushHistory h env.nowIso fr)
      st.history
    let s' : DomainState :=
      { eventChain := [], lastHash := hm.clockDigest env.now,
        flushCount := st.mem.flushCount + 1 }
    ({ mem := s', disk := s', history := history' }, frs, calls)

/-- `addEventToChain` (src/index.mjs lines 578-603): extend the chain,
persist (`saveDomainState`), and flush once the pending length reaches the
threshold. -/
def addEventToChain (threshold : Nat) (hm : HashModel) (env : Env)
    (st : FullState) (e : Event) : FullState × ChainedEvent :=
  let s' := (appendEvent hm st.mem e).1
  let c := (appendEvent hm st.mem e).2
  let st1 : FullState := { st with mem := s', disk := s' }
  if threshold ≤ s'.eventChain.length then ((flushEvents hm env st1).1, c)
  else (st1, c)

/-- Result of the reach aggregation (src/unnamed agent variant, the
`REACH LOGIC` block of its `flushEvents`): unique verified viewers plus the
two diagnostic exclusion counters. -/
structure ReachResult where
  reach : Nat
  excludedLowTrust : Nat
  excludedUnverified : Nat
  deriving DecidableEq, Repr

/-- JS `Set.add`: append only if not already present (insertion order). -/
def insertNew (seen : List String) (a : String) : List String :=
  if a ∈ seen then seen else seen ++ [a]

/-- Accumulator of the reach loop: the `verifiedViewers` set and the
`lowNotabotViews` / `unverifiedViews` counters. -/
structure ReachAcc where
  seen : List String
  low : Nat
  unv : Nat
  deriving DecidableEq, Repr

/-- One iteration of the reach loop over a view event: a verified event with
a truthy address joins the viewer set when its notabot score clears the
floor, is counted low-trust otherwise; everything else is unverified. -/
def reachStep (minScore : Int) (acc : ReachAcc) (e : Event) : ReachAcc :=
  if e.verified && optTruthy e.userAddress then
    if minScore ≤ e.notabotScore then
      { acc with seen := insertNew acc.seen (e.userAddress.getD "") }
    else { acc with low := acc.low + 1 }
  else { acc with unv := acc.unv + 1 }

/-- The notabot floor hard-coded in the source (`MIN_NOTABOT_SCORE`). -/
def MIN_NOTABOT_SCORE : Int := 10

/-- The reach aggregation of the source's `flushEvents`, as a function of the
minimum-score constant: filter view events, then run the classification loop
and read off the set size and counters. -/
def computeReach (events : List Event) (minScore : Int) : ReachResult :=
  let acc := (events.filter (fun e => e.type == "view")).foldl
    (reachStep minScore) ⟨[], 0, 0⟩
  { reach := acc.seen.length, excludedLowTrust := acc.low,
    excludedUnverified := acc.unv }

/-- Restatement of the spec's reach definition, for comparison with
`computeReach`: the number of distinct `actorAddress` values among events
with `type == view`, `verified == true` and `trustScore >= minTrustScore`. -/
def reachSpec (events : List Event) (minScore : Int) : Nat :=
  ((events.filter (fun e =>
      e.type == "view" && e.verified && decide (minScore ≤ e.notabotScore))).map
    (fun e => e.userAddress)).toFinset.card

/-- Outcome of `verifyEventSignature`. -/
structure VerifyResult where
  verified : Bool
  address : Option String
  deriving DecidableEq, Repr

/-- The canonical signed message, `adnet:{campaignId}:{type}:{timestamp}`. -/
def signedMessage (campaignId type timestamp : String) : String :=
  "adnet:" ++ campaignId ++ ":" ++ type ++ ":" ++ timestamp

/-- `verifyEventSignature` (source agent variant): guard on missing inputs,
recover the signer of the canonical message — `recover` models
`ethers.verifyMessage`, whose failure on a malformed signature is an
exception caught by the surrounding try/catch — and compare the recovered
address case-insensitively with the claimed one. -/
def verifyEventSignature (recover : String → String → Except String String)
    (userAddress signature campaignId type timestamp : String) : VerifyResult :=
  if userAddress = "" || signature = "" then ⟨false, none⟩
  else
    match recover (signedMessage campaignId type timestamp) signature with
    | .error _ => ⟨false, none⟩
    | .ok rec =>
      if rec.toLower = userAddress.toLower then ⟨true, some rec.toLower⟩
      else ⟨false, none⟩

/-- Request body accepted by the `/record` route; absent strings are `""`. -/
structure RecordBody where
  campaignId : String
  promotionId : String
  type : String
  timestamp : String
  userAddress : String
  signature : String
  notabotScore : Int
  deriving DecidableEq, Repr

/-- Response of the `/record` route. -/
structure RecordResponse where
  httpCode : Nat
  status : String
  eventHash : Option String
  verified : Option Bool
  deriving DecidableEq, Repr

/-- The `/record` route of the source agent variant: validate, verify the
signature, build the event (address kept only when verified), append it to
the tenant chain and answer success. -/
def recordRoute (recover : String → String → Except String String)
    (threshold : Nat) (hm : HashModel) (env : Env) (st : FullState)
    (body : RecordBody) : FullState × RecordResponse :=
  if body.campaignId = "" || body.type = "" then
    (st, ⟨400, "error", none, none⟩)
  else if !(body.type == "view" || body.type == "click") then
    (st, ⟨400, "error", none, none⟩)
  else
    let v := verifyEventSignature recover body.userAddress body.signature
      body.campaignId body.type body.timestamp
    let e : Event :=
      { campaignId := body.campaignId
        promotionId := if body.promotionId = "" then "default"
                       else body.promotionId
        type := body.type
        userAddress := if v.verified then v.address else none
        verified := v.verified
        notabotScore := body.notabotScore
        timestamp := env.nowIso }
    let stc := addEventToChain threshold hm env st e
    (stc.1, ⟨200, "success", some stc.2.hash, some v.verified⟩)

/-- Invariant maintained by `appendEvent`: the pending chain is linked from
`genesisHash` and `lastHash` is its tail hash. -/
def ChainInv (s : DomainState) : Prop :=
  linkedFrom genesisHash s.eventChain ∧
  s.lastHash = tailHashOf genesisHash s.eventChain

/-- The aggregate counters of a history agree with its per-flush records. -/
def HistoryConsistent (h : History) : Prop :=
  h.totalEvents = (h.flushes.map BatchRecord.eventCount).sum ∧
  h.totalViews = (h.flushes.map BatchRecord.views).sum ∧
  h.totalClicks = (h.flushes.map BatchRecord.clicks).sum

/-! ## Concrete fixtures used by witnesses -/

/-- A concrete digest model for witnesses (the theorems hold for every
digest). -/
def hmEx : HashModel :=
  { hashEvent := fun e p => p ++ "#" ++ e.campaignId ++ ":" ++ e.type,
    clockDigest := fun n => "clock" ++ toString n }

/-- A verified view event. -/
def evA : Event :=
  { campaignId := "c1", promotionId := "p1", type := "view",
    userAddress := some "0xA", verified := true, notabotScore := 20,
    timestamp := "t1" }

/-- A click event for a second campaign. -/
def evB : Event :=
  { campaignId := "c2", promotionId := "p2", type := "click",
    userAddress := none, verified := false, notabotScore := 0,
    timestamp := "t2" }

/-- A concrete environment for witnesses: one cached campaign with a
contract, uploads succeed, the chain accepts transactions. -/
def envEx : Env :=
  { campaignsCache :=
      [{ id := "c1", campaignId := none, contractAddress := some "0xC" }],
    enabled := true,
    ipfs := fun _ => some { hash := "Qm1", url := "https://g/ipfs/Qm1" },
    tx := fun _ => some { txHash := "0xT", blockNumber := 7 },
    now := 1700000000000,
    nowIso := "2023-11-14T22:13:20.000Z" }

/-- A concrete chained event for campaign `c1`. -/
def chA : ChainedEvent :=
  { ev := evA, hash := "ab12", previousHash := genesisHash, chainIndex := 0 }

/-- A concrete tenant state with one pending event. -/
def stOne : FullState :=
  { mem := { eventChain := [chA], lastHash := "ab12", flushCount := 0 },
    disk := { eventChain := [chA], lastHash := "ab12", flushCount := 0 },
    history := initialHistory }

/-- B in the claim's fixture: a verified view whose trust score is below the
floor. -/
def fixB : Event :=
  { campaignId := "c1", promotionId := "p", type := "view",
    userAddress := some "0xB", verified := true, notabotScore := 5,
    timestamp := "t3" }

/-- C in the claim's fixture: an unverified view. -/
def fixC : Event :=
  { campaignId := "c1", promotionId := "p", type := "view",
    userAddress := some "0xC", verified := false, notabotScore := 0,
    timestamp := "t4" }

/-- The claim's four-event fixture: A twice (verified, score 20), B
(verified, score 5), C (unverified), all views. -/
def reachFixture : List Event := [evA, evA, fixB, fixC]

/-- A recovery function that models `ethers.verifyMessage` throwing on a
malformed signature. -/
def recoverFail : String → String → Except String String :=
  fun _ _ => .error "invalid signature"

/-- A concrete record request carrying a claimed address and a signature. -/
def bodyEx : RecordBody :=
  { campaignId := "c1", promotionId := "p1", type := "view",
    timestamp := "123", userAddress := "0xA", signature := "zz",
    notabotScore := 0 }

/-! ## Chain linkage lemmas -/

lemma tailHashOf_append (p : String) (l : List ChainedEvent) (c : ChainedEvent) :
    tailHashOf p (l ++ [c]) = c.hash := by
  induction l generalizing p with
  | nil => rfl
  | cons d t ih => simpa [tailHashOf] using ih d.hash

lemma linkedFrom_append (p : String) (l : List ChainedEvent) (c : ChainedEvent)
    (hl : linkedFrom p l) (hc : c.previousHash = tailHashOf p l) :
    linkedFrom p (l ++ [c]) := by
  induction l generalizing p with
  | nil => exact ⟨hc, trivial⟩
  | cons d t ih =>
    exact ⟨hl.1, ih d.hash hl.2 hc⟩

lemma chainInv_initial : ChainInv initialDomainState :=
  ⟨trivial, rfl⟩

lemma chainInv_appendEvent (hm : HashModel) (s : DomainState) (e : Event)
    (h : ChainInv s) : ChainInv (appendEvent hm s e).1 := by
  obtain ⟨hlink, htail⟩ := h
  constructor
  · exact linkedFrom_append _ _ _ hlink htail
  · simp [appendEvent, tailHashOf_append]

lemma chainInv_foldl (hm : HashModel) (events : List Event) (s : DomainState)
    (h : ChainInv s) :
    ChainInv (events.foldl (fun s e => (appendEvent hm s e).1) s) := by
  induction events generalizing s with
  | nil => exact h
  | cons e t ih => exact ih _ (chainInv_appendEvent hm s e h)

lemma chainInv_appendAll (hm : HashModel) (events : List Event) :
    ChainInv (appendAll hm events) :=
  chainInv_foldl hm events initialDomainState chainInv_initial

lemma linkedFrom_head (p : String) (l : List ChainedEvent)
    (hl : linkedFrom p l) (hne : 0 < l.length) :
    (l.getD 0 default).previousHash = p := by
  cases l with
  | nil => simp at hne
  | cons c t => exact hl.1

lemma linkedFrom_getD (p : String) (l : List ChainedEvent)
    (hl : linkedFrom p l) :
    ∀ i, 0 < i → i < l.length →
      (l.getD i default).previousHash = (l.getD (i - 1) default).hash := by
  induction l generalizing p with
  | nil => intro i _ hi; simp at hi
  | cons c t ih =>
    intro i hi hil
    match i, hi with
    | 1, _ =>
      have ht : 0 < t.length := by simpa using hil
      simpa using linkedFrom_head c.hash t hl.2 ht
    | (j + 2), _ =>
      have hil' : j + 1 < t.length := by
        simp [List.length_cons] at hil; omega
      have := ih c.hash hl.2 (j + 1) (by omega) hil'
      simpa using this

/-- C1: for every tenant and every sequence of events appended via
`addEventToChain` with no intervening flush, starting from the freshly
initialised tenant state, each entry's `previousHash` equals the previous
entry's `hash`, the first entry's `previousHash` is the genesis constant,
and that constant is the all-zero value of the 64-hex-digit digest length. -/
theorem chain_integrity (hm : HashModel) (events : List Event) :
    (∀ i, 0 < i → i < (appendAll hm events).eventChain.length →
      (((appendAll hm events).eventChain.getD i default).previousHash =
       ((appendAll hm events).eventChain.getD (i - 1) default).hash)) ∧
    (0 < (appendAll hm events).eventChain.length →
      ((appendAll hm events).eventChain.getD 0 default).previousHash =
        genesisHash) ∧
    genesisHash = String.mk (List.replicate 64 '0') := by
  have h := chainInv_appendAll hm events
  exact ⟨fun i hi hil => linkedFrom_getD genesisHash _ h.1 i hi hil,
         fun h0 => linkedFrom_head genesisHash _ h.1 h0,
         by decide⟩

/-- Witness for C1 at a concrete digest model and two concrete events. -/
theorem chain_integrity_witness :
    (((appendAll hmEx [evA, evB]).eventChain.getD 1 default).previousHash =
      ((appendAll hmEx [evA, evB]).eventChain.getD 0 default).hash) ∧
    ((appendAll hmEx [evA, evB]).eventChain.getD 0 default).previousHash =
      genesisHash :=
  ⟨(chain_integrity hmEx [evA, evB]).1 1 (by decide) (by decide),
   (chain_integrity hmEx [evA, evB]).2.1 (by decide)⟩

/-! ## Fixed-width formatting of the segment tail hash -/

lemma padBytes32_length (cs : List Char) : (padBytes32 cs).length = 64 := by
  simp only [padBytes32, List.length_append, List.length_replicate,
    List.length_take]
  omega

/-- C9: every tail-hash value handed to the gateway's formatter comes back as
a fixed-width value: 66 characters including the `0x` prefix; an absent value
becomes the all-zero 32-byte word, and a prefix-free input shorter than (or
exactly) 64 hex digits is right-padded with zeros to exactly 64 digits. -/
theorem formatBytes32_fixed_width :
    (∀ h : Option String, (formatBytes32Str h).length = 66) ∧
    formatBytes32Str none = "0x" ++ genesisHash ∧
    (∀ s : String, s ≠ "" → s.toList.take 2 ≠ ['0', 'x'] → s.length ≤ 64 →
      formatBytes32Str (some s) =
        "0x" ++ s ++ String.mk (List.replicate (64 - s.length) '0')) := by
  refine ⟨?_, rfl, ?_⟩
  · intro h
    match h with
    | none => decide
    | some s =>
      by_cases hs : s = ""
      · subst hs; decide
      · simp only [formatBytes32Str, if_neg hs, String.length_append,
          String.length_mk, padBytes32_length]
        decide
  · intro s hs hpre hlen
    have hdata : s.toList = s.data := rfl
    have hpre' : List.take 2 s.data ≠ ['0', 'x'] := hdata ▸ hpre
    have hlen' : s.data.length ≤ 64 := hlen
    have hslen : s.length = s.data.length := rfl
    simp only [formatBytes32Str, if_neg hs]
    apply String.ext
    simp only [String.data_append, String.mk, padBytes32, hdata, if_neg hpre']
    rw [List.take_of_length_le hlen', hslen, List.append_assoc]

/-- Witness for C9 at a concrete short hash. -/
theorem formatBytes32_fixed_width_witness :
    (formatBytes32Str (some "abc")).length = 66 ∧
    formatBytes32Str (some "abc") =
      "0x" ++ "abc" ++ String.mk (List.replicate 61 '0') :=
  ⟨formatBytes32_fixed_width.1 (some "abc"),
   formatBytes32_fixed_width.2.2 "abc" (by decide) (by decide) (by decide)⟩

/-! ## Flush history aggregate consistency -/

lemma historyConsistent_record (h : History) (ts : String) (fr : FlushResult)
    (hc : HistoryConsistent h) :
    HistoryConsistent (recordFlushHistory h ts fr) := by
  obtain ⟨h1, h2, h3⟩ := hc
  refine ⟨?_, ?_, ?_⟩ <;>
    simp [recordFlushHistory, h1, h2, h3]

lemma historyConsistent_foldl (l : List (String × FlushResult)) (h : History)
    (hc : HistoryConsistent h) :
    HistoryConsistent
      (l.foldl (fun h p => recordFlushHistory h p.1 p.2) h) := by
  induction l generalizing h with
  | nil => exact hc
  | cons p t ih => exact ih _ (historyConsistent_record h p.1 p.2 hc)

/-- C10: after any sequence of recorded flushes the aggregate counters equal
the sums of the per-flush records, and `recordFlushHistory` only ever appends
to the flush list (existing records are untouched). -/
theorem history_aggregates_consistent :
    (∀ l : List (String × FlushResult),
      HistoryConsistent
        (l.foldl (fun h p => recordFlushHistory h p.1 p.2) initialHistory)) ∧
    (∀ (h : History) (ts : String) (fr : FlushResult),
      (recordFlushHistory h ts fr).flushes =
        h.flushes ++ [mkBatchRecord ts fr]) :=
  ⟨fun l => historyConsistent_foldl l initialHistory ⟨rfl, rfl, rfl⟩,
   fun _ _ _ => rfl⟩

/-! ## Flush behaviour lemmas -/

lemma foldl_record_flushes (frs : List FlushResult) (h : History) (ts : String) :
    (frs.foldl (fun h fr => recordFlushHistory h ts fr) h).flushes =
      h.flushes ++ frs.map (mkBatchRecord ts) := by
  induction frs generalizing h with
  | nil => simp
  | cons fr t ih =>
    rw [List.foldl_cons, ih]
    simp [recordFlushHistory]

lemma flushEvents_empty (hm : HashModel) (env : Env) (st : FullState)
    (h : st.mem.eventChain = []) : flushEvents hm env st = (st, [], []) := by
  simp [flushEvents, h]

lemma flushEvents_len_ne (st : FullState) (h : st.mem.eventChain ≠ []) :
    (st.mem.eventChain.length == 0) = false := by
  simp [List.length_eq_zero, h]

lemma flushEvents_mem (hm : HashModel) (env : Env) (st : FullState)
    (h : st.mem.eventChain ≠ []) :
    (flushEvents hm env st).1.mem =
      { eventChain := [], lastHash := hm.clockDigest env.now,
        flushCount := st.mem.flushCount + 1 } := by
  simp [flushEvents, flushEvents_len_ne st h]

lemma flushEvents_disk (hm : HashModel) (env : Env) (st : FullState)
    (h : st.mem.eventChain ≠ []) :
    (flushEvents hm env st).1.disk = (flushEvents hm env st).1.mem := by
  simp [flushEvents, flushEvents_len_ne st h]

lemma flushEvents_history (hm : HashModel) (env : Env) (st : FullState)
    (h : st.mem.eventChain ≠ []) :
    (flushEvents hm env st).1.history.flushes =
      st.history.flushes ++
        (groupByCampaign st.mem.eventChain).map
          (fun g => mkBatchRecord env.nowIso (flushPartition env g.1 g.2).1) := by
  simp [flushEvents, flushEvents_len_ne st h, foldl_record_flushes,
    List.map_map, Function.comp]

lemma flushEvents_results (hm : HashModel) (env : Env) (st : FullState)
    (h : st.mem.eventChain ≠ []) :
    (flushEvents hm env st).2.1 =
      (groupByCampaign st.mem.eventChain).map
        (fun g => (flushPartition env g.1 g.2).1) := by
  simp [flushEvents, flushEvents_len_ne st h, List.map_map, Function.comp]

/-- C5: flushing a tenant whose pending chain is empty is a total no-op: it
returns the empty result list, changes no state (in memory or on disk) and
appends nothing to the history. The model is a total function, so no error
can be raised. -/
theorem empty_flush_noop (hm : HashModel) (env : Env) (st : FullState)
    (h : st.mem.eventChain = []) :
    flushEvents hm env st = (st, [], []) :=
  flushEvents_empty hm env st h

/-- Witness for C5 on the freshly initialised tenant. -/
theorem empty_flush_noop_witness :
    flushEvents hmEx envEx initialFullState = (initialFullState, [], []) :=
  empty_flush_noop hmEx envEx initialFullState rfl

/-- C6: flushing a non-empty chain empties it, sets the tail hash to the
digest of the current wall clock — which, whenever that digest differs from
the genesis constant and from the drained segment's tail (as a collision-free
digest guarantees), makes the new tail distinct from both — increments
`flushCount` by exactly one and persists the reset state to disk. -/
theorem flush_resets_ledger (hm : HashModel) (env : Env) (st : FullState)
    (h : st.mem.eventChain ≠ [])
    (hg : hm.clockDigest env.now ≠ genesisHash)
    (ht : hm.clockDigest env.now ≠ st.mem.lastHash) :
    (flushEvents hm env st).1.mem.eventChain = [] ∧
    (flushEvents hm env st).1.mem.lastHash = hm.clockDigest env.now ∧
    (flushEvents hm env st).1.mem.lastHash ≠ genesisHash ∧
    (flushEvents hm env st).1.mem.lastHash ≠ st.mem.lastHash ∧
    (flushEvents hm env st).1.mem.flushCount = st.mem.flushCount + 1 ∧
    (flushEvents hm env st).1.disk = (flushEvents hm env st).1.mem := by
  have hmem := flushEvents_mem hm env st h
  exact ⟨by rw [hmem], by rw [hmem], by rw [hmem]; exact hg,
         by rw [hmem]; exact ht, by rw [hmem],
         flushEvents_disk hm env st h⟩

/-- Witness for C6 on a concrete one-event tenant. -/
theorem flush_resets_ledger_witness :
    (flushEvents hmEx envEx stOne).1.mem.eventChain = [] ∧
    (flushEvents hmEx envEx stOne).1.mem.lastHash =
      hmEx.clockDigest envEx.now ∧
    (flushEvents hmEx envEx stOne).1.mem.lastHash ≠ genesisHash ∧
    (flushEvents hmEx envEx stOne).1.mem.lastHash ≠ stOne.mem.lastHash ∧
    (flushEvents hmEx envEx stOne).1.mem.flushCount =
      stOne.mem.flushCount + 1 ∧
    (flushEvents hmEx envEx stOne).1.disk = (flushEvents hmEx envEx stOne).1.mem :=
  flush_resets_ledger hmEx envEx stOne (by decide) (by decide) (by decide)

/-- C7: a non-empty flush appends exactly one `BatchRecord` per campaign
partition of the drained segment — whatever the upload and submission
outcomes in the environment — before returning its per-partition results. -/
theorem flush_records_every_partition (hm : HashModel) (env : Env)
    (st : FullState) (h : st.mem.eventChain ≠ []) :
    (flushEvents hm env st).1.history.flushes =
      st.history.flushes ++
        (groupByCampaign st.mem.eventChain).map
          (fun g => mkBatchRecord env.nowIso (flushPartition env g.1 g.2).1) ∧
    (flushEvents hm env st).2.1.length =
      (groupByCampaign st.mem.eventChain).length := by
  refine ⟨flushEvents_history hm env st h, ?_⟩
  rw [flushEvents_results hm env st h]
  simp

/-- Witness for C7 on a concrete one-event tenant (one partition). -/
theorem flush_records_every_partition_witness :
    (flushEvents hmEx envEx stOne).1.history.flushes =
      stOne.history.flushes ++
        (groupByCampaign stOne.mem.eventChain).map
          (fun g => mkBatchRecord envEx.nowIso (flushPartition envEx g.1 g.2).1) ∧
    (flushEvents hmEx envEx stOne).2.1.length =
      (groupByCampaign stOne.mem.eventChain).length :=
  flush_records_every_partition hmEx envEx stOne (by decide)

/-! ## Distinct-count lemmas for the JS Set / grouping patterns -/

lemma insertNew_toFinset (seen : List String) (a : String) :
    (insertNew seen a).toFinset = insert a seen.toFinset := by
  by_cases h : a ∈ seen
  · rw [insertNew, if_pos h]
    exact (Finset.insert_eq_self.mpr (List.mem_toFinset.mpr h)).symm
  · rw [insertNew, if_neg h]
    ext x
    simp [List.mem_toFinset, or_comm]

lemma insertNew_nodup (seen : List String) (a : String) (h : seen.Nodup) :
    (insertNew seen a).Nodup := by
  by_cases ha : a ∈ seen
  · simpa [insertNew, ha]
  · simp [insertNew, ha, List.nodup_append, h]

lemma foldl_insertNew_toFinset (l : List String) (seen : List String) :
    (l.foldl insertNew seen).toFinset = seen.toFinset ∪ l.toFinset := by
  induction l generalizing seen with
  | nil => simp
  | cons a t ih =>
    rw [List.foldl_cons, ih, insertNew_toFinset]
    ext x
    simp [or_assoc, or_comm, or_left_comm]

lemma foldl_insertNew_nodup (l : List String) (seen : List String)
    (h : seen.Nodup) : (l.foldl insertNew seen).Nodup := by
  induction l generalizing seen with
  | nil => exact h
  | cons a t ih => exact ih _ (insertNew_nodup seen a h)

lemma foldl_insertNew_length (l : List String) :
    (l.foldl insertNew []).length = l.toFinset.card := by
  rw [← List.toFinset_card_of_nodup (foldl_insertNew_nodup l [] (by simp)),
    foldl_insertNew_toFinset]
  simp

lemma addToGroups_keys (gs : List (String × List ChainedEvent))
    (c : ChainedEvent) :
    (addToGroups gs c).map Prod.fst =
      insertNew (gs.map Prod.fst) c.ev.campaignId := by
  by_cases h : gs.any (fun g => g.1 == c.ev.campaignId)
  · have hmem : c.ev.campaignId ∈ gs.map Prod.fst := by
      rw [List.any_eq_true] at h
      obtain ⟨g, hg, he⟩ := h
      exact List.mem_map.mpr ⟨g, hg, beq_iff_eq.mp he⟩
    rw [addToGroups, if_pos h, insertNew, if_pos hmem, List.map_map]
    apply List.map_congr_left
    intro g _
    by_cases hgc : g.1 = c.ev.campaignId <;> simp [hgc]
  · have hmem : c.ev.campaignId ∉ gs.map Prod.fst := by
      simp only [List.any_eq_true, beq_iff_eq] at h
      push_neg at h
      simp only [List.mem_map, not_exists]
      rintro g ⟨hg, he⟩
      exact h g hg he
    rw [addToGroups, if_neg h, insertNew, if_neg hmem]
    simp

lemma foldl_addToGroups_keys (l : List ChainedEvent)
    (gs : List (String × List ChainedEvent)) :
    ((l.foldl addToGroups gs).map Prod.fst) =
      ((l.map (fun c => c.ev.campaignId)).foldl insertNew
        (gs.map Prod.fst)) := by
  induction l generalizing gs with
  | nil => rfl
  | cons c t ih =>
    rw [List.foldl_cons, ih, List.map_cons, List.foldl_cons, addToGroups_keys]

lemma groupByCampaign_length (l : List ChainedEvent) :
    (groupByCampaign l).length =
      (l.map (fun c => c.ev.campaignId)).toFinset.card := by
  have h := foldl_addToGroups_keys l []
  calc (groupByCampaign l).length
      = ((groupByCampaign l).map Prod.fst).length := by simp
    _ = ((l.map (fun c => c.ev.campaignId)).foldl insertNew []).length := by
        rw [groupByCampaign, h]; rfl
    _ = _ := foldl_insertNew_length _

/-! ## Threshold behaviour -/

lemma appendEvent_chain_map (hm : HashModel) (s : DomainState) (e : Event) :
    ((appendEvent hm s e).1.eventChain.map (fun c => c.ev.campaignId)) =
      s.eventChain.map (fun c => c.ev.campaignId) ++ [e.campaignId] := by
  simp [appendEvent]

lemma appendList_chain_map (hm : HashModel) (es : List Event) (s : DomainState) :
    ((es.foldl (fun s e => (appendEvent hm s e).1) s).eventChain.map
        (fun c => c.ev.campaignId)) =
      s.eventChain.map (fun c => c.ev.campaignId) ++ es.map Event.campaignId := by
  induction es generalizing s with
  | nil => simp
  | cons e t ih =>
    rw [List.foldl_cons, ih, appendEvent_chain_map]
    simp

lemma appendList_length (hm : HashModel) (es : List Event) (s : DomainState) :
    (es.foldl (fun s e => (appendEvent hm s e).1) s).eventChain.length =
      s.eventChain.length + es.length := by
  have h := congrArg List.length (appendList_chain_map hm es s)
  simpa using h

lemma appendList_flushCount (hm : HashModel) (es : List Event)
    (s : DomainState) :
    (es.foldl (fun s e => (appendEvent hm s e).1) s).flushCount =
      s.flushCount := by
  induction es generalizing s with
  | nil => rfl
  | cons e t ih => rw [List.foldl_cons, ih]; rfl

lemma addEventToChain_below (threshold : Nat) (hm : HashModel) (env : Env)
    (st : FullState) (e : Event)
    (h : st.mem.eventChain.length + 1 < threshold) :
    (addEventToChain threshold hm env st e).1 =
      { st with mem := (appendEvent hm st.mem e).1,
                disk := (appendEvent hm st.mem e).1 } := by
  have hlen : (appendEvent hm st.mem e).1.eventChain.length =
      st.mem.eventChain.length + 1 := by simp [appendEvent]
  simp only [addEventToChain]
  rw [if_neg (by omega)]

lemma addEventToChain_atThreshold (threshold : Nat) (hm : HashModel)
    (env : Env) (st : FullState) (e : Event)
    (h : threshold ≤ st.mem.eventChain.length + 1) :
    (addEventToChain threshold hm env st e).1 =
      (flushEvents hm env
        { st with mem := (appendEvent hm st.mem e).1,
                  disk := (appendEvent hm st.mem e).1 }).1 := by
  have hlen : (appendEvent hm st.mem e).1.eventChain.length =
      st.mem.eventChain.length + 1 := by simp [appendEvent]
  simp only [addEventToChain]
  rw [if_pos (by omega)]

lemma addEventToChain_snd (threshold : Nat) (hm : HashModel) (env : Env)
    (st : FullState) (e : Event) :
    (addEventToChain threshold hm env st e).2 = (appendEvent hm st.mem e).2 := by
  simp only [addEventToChain]
  split <;> rfl

lemma addList_below (threshold : Nat) (hm : HashModel) (env : Env)
    (es : List Event) (st : FullState)
    (hd : st.disk = st.mem)
    (h : st.mem.eventChain.length + es.length < threshold) :
    (es.foldl (fun st e => (addEventToChain threshold hm env st e).1) st) =
      { st with mem := es.foldl (fun s e => (appendEvent hm s e).1) st.mem,
                disk := es.foldl (fun s e => (appendEvent hm s e).1) st.mem } := by
  induction es generalizing st with
  | nil =>
    simp only [List.foldl_nil]
    cases st
    simp_all
  | cons e t ih =>
    simp only [List.foldl_cons, List.length_cons] at h ⊢
    rw [addEventToChain_below threshold hm env st e (by omega)]
    rw [ih _ rfl (by simp [appendEvent]; omega)]

/-- C4: with threshold 5 and a fresh tenant, appending four events leaves the
pending chain at length 4 with no flush (no history record, `flushCount`
still 0); the fifth append triggers exactly one flush, emptying the pending
chain, incrementing `flushCount` to 1 and appending one history record per
campaign present in the drained segment. -/
theorem threshold_trigger (hm : HashModel) (env : Env)
    (e1 e2 e3 e4 e5 : Event) :
    (([e1, e2, e3, e4].foldl
        (fun st e => (addEventToChain 5 hm env st e).1)
        initialFullState).mem.eventChain.length = 4 ∧
     ([e1, e2, e3, e4].foldl
        (fun st e => (addEventToChain 5 hm env st e).1)
        initialFullState).mem.flushCount = 0 ∧
     ([e1, e2, e3, e4].foldl
        (fun st e => (addEventToChain 5 hm env st e).1)
        initialFullState).history.flushes = []) ∧
    ((addEventToChain 5 hm env
        ([e1, e2, e3, e4].foldl
          (fun st e => (addEventToChain 5 hm env st e).1)
          initialFullState) e5).1.mem.eventChain = [] ∧
     (addEventToChain 5 hm env
        ([e1, e2, e3, e4].foldl
          (fun st e => (addEventToChain 5 hm env st e).1)
          initialFullState) e5).1.mem.flushCount = 1 ∧
     (addEventToChain 5 hm env
        ([e1, e2, e3, e4].foldl
          (fun st e => (addEventToChain 5 hm env st e).1)
          initialFullState) e5).1.history.flushes.length =
       ([e1, e2, e3, e4, e5].map Event.campaignId).toFinset.card) := by
  have h4 := addList_below 5 hm env [e1, e2, e3, e4] initialFullState rfl
    (by simp [initialFullState, initialDomainState])
  set m4 := [e1, e2, e3, e4].foldl (fun s e => (appendEvent hm s e).1)
    initialFullState.mem with hm4
  have hlen4 : m4.eventChain.length = 4 := by
    rw [hm4, appendList_length]
    simp [initialFullState, initialDomainState]
  have hfc4 : m4.flushCount = 0 := by
    rw [hm4, appendList_flushCount]
    rfl
  refine ⟨⟨by rw [h4]; exact hlen4, by rw [h4]; exact hfc4,
    by rw [h4]; rfl⟩, ?_⟩
  -- the fifth append crosses the threshold and flushes
  rw [h4]
  set stF : FullState :=
    { initialFullState with mem := m4, disk := m4 } with hstF
  have hflush := addEventToChain_atThreshold 5 hm env stF e5
    (by simp [hstF]; omega)
  rw [hflush]
  set m5 := (appendEvent hm stF.mem e5).1 with hm5
  set stF5 : FullState := { stF with mem := m5, disk := m5 } with hstF5
  have hlen5 : m5.eventChain.length = 5 := by
    have : m5.eventChain.length = stF.mem.eventChain.length + 1 := by
      simp [hm5, appendEvent]
    simp only [hstF] at this
    omega
  have hne5 : stF5.mem.eventChain ≠ [] := by
    intro hc
    rw [hstF5] at hc
    simp only at hc
    rw [hc] at hlen5
    simp at hlen5
  have hmap5 : stF5.mem.eventChain.map (fun c => c.ev.campaignId) =
      [e1, e2, e3, e4, e5].map Event.campaignId := by
    show m5.eventChain.map (fun c => c.ev.campaignId) = _
    have h1 : m5.eventChain.map (fun c => c.ev.campaignId) =
        m4.eventChain.map (fun c => c.ev.campaignId) ++ [e5.campaignId] := by
      rw [hm5]
      exact appendEvent_chain_map hm stF.mem e5
    have h2 : m4.eventChain.map (fun c => c.ev.campaignId) =
        [e1, e2, e3, e4].map Event.campaignId := by
      rw [hm4, appendList_chain_map]
      simp [initialFullState, initialDomainState]
    rw [h1, h2]
    simp
  refine ⟨?_, ?_, ?_⟩
  · rw [flushEvents_mem hm env stF5 hne5]
  · rw [flushEvents_mem hm env stF5 hne5]
    show stF5.mem.flushCount + 1 = 1
    have : stF5.mem.flushCount = m4.flushCount := by
      show m5.flushCount = m4.flushCount
      rw [hm5]
      rfl
    rw [this, hfc4]
  · rw [flushEvents_history hm env stF5 hne5]
    have : stF5.history.flushes = [] := rfl
    rw [this]
    simp only [List.nil_append, List.length_map]
    rw [groupByCampaign_length, hmap5]

/-! ## Reach aggregation -/

lemma reach_fold_seen (m : Int) (l : List Event) (acc : ReachAcc) :
    (l.foldl (reachStep m) acc).seen =
      ((l.filter (fun e => (e.verified && optTruthy e.userAddress) &&
          decide (m ≤ e.notabotScore))).map
        (fun e => e.userAddress.getD "")).foldl insertNew acc.seen := by
  induction l generalizing acc with
  | nil => rfl
  | cons e t ih =>
    by_cases hA : (e.verified && optTruthy e.userAddress) = true
    · by_cases hB : m ≤ e.notabotScore
      · simp only [List.foldl_cons, List.filter_cons]
        rw [if_pos (by simp [hA, hB])]
        simp only [List.map_cons, List.foldl_cons]
        rw [ih]
        congr 1
        simp [reachStep, hA, hB]
      · simp only [List.foldl_cons, List.filter_cons]
        rw [if_neg (by simp [hA, hB])]
        rw [ih]
        congr 1
        simp [reachStep, hA, hB]
    · simp only [List.foldl_cons, List.filter_cons]
      rw [if_neg (by simp [hA])]
      rw [ih]
      congr 1
      simp [reachStep, hA]

lemma computeReach_card (events : List Event) (m : Int) :
    (computeReach events m).reach =
      (((events.filter (fun e => e.type == "view")).filter
          (fun e => (e.verified && optTruthy e.userAddress) &&
            decide (m ≤ e.notabotScore))).map
        (fun e => e.userAddress.getD "")).toFinset.card := by
  show ((events.filter (fun e => e.type == "view")).foldl
      (reachStep m) ⟨[], 0, 0⟩).seen.length = _
  rw [reach_fold_seen]
  exact foldl_insertNew_length _

/-- C2: the computed reach is the number of distinct `actorAddress` values
among view events that are verified and meet the trust floor — for every
batch in which verified view events carry an address, which the `/record`
route guarantees (it only stores an address when verification succeeded) —
and on the claim's four-event fixture with floor 10 the computation yields
reach 1, one low-trust exclusion and one unverified exclusion. -/
theorem reach_distinct_verified :
    (∀ (events : List Event) (minScore : Int),
      (∀ e ∈ events, e.type = "view" → e.verified = true →
        optTruthy e.userAddress = true) →
      (computeReach events minScore).reach = reachSpec events minScore) ∧
    computeReach reachFixture MIN_NOTABOT_SCORE =
      { reach := 1, excludedLowTrust := 1, excludedUnverified := 1 } := by
  constructor
  · intro events m H
    rw [computeReach_card]
    have hcong : (events.filter (fun e => e.type == "view")).filter
        (fun e => (e.verified && optTruthy e.userAddress) &&
          decide (m ≤ e.notabotScore)) =
        (events.filter (fun e => e.type == "view")).filter
        (fun e => e.verified && decide (m ≤ e.notabotScore)) := by
      apply List.filter_congr
      intro e he
      have hview : e.type = "view" := by
        have := List.of_mem_filter he
        exact beq_iff_eq.mp this
      have hevents : e ∈ events := List.mem_of_mem_filter he
      by_cases hv : e.verified = true
      · have ht := H e hevents hview hv
        simp [hv, ht]
      · have hv' : e.verified = false := by
          revert hv; cases e.verified <;> simp
        simp [hv']
    rw [hcong]
    have hfuse : (events.filter (fun e => e.type == "view")).filter
        (fun e => e.verified && decide (m ≤ e.notabotScore)) =
        events.filter (fun e =>
          e.type == "view" && e.verified && decide (m ≤ e.notabotScore)) := by
      rw [List.filter_filter]
      apply List.filter_congr
      intro e _
      cases hb : (e.type == "view") <;> cases hv : e.verified <;>
        cases hs : decide (m ≤ e.notabotScore) <;> simp [hb, hv, hs]
    rw [hfuse]
    rw [reachSpec]
    have hpt : ∀ e ∈ events.filter (fun e =>
        e.type == "view" && e.verified && decide (m ≤ e.notabotScore)),
        e.userAddress = some (e.userAddress.getD "") := by
      intro e he
      have hp := List.of_mem_filter he
      have hevents : e ∈ events := List.mem_of_mem_filter he
      have hview : e.type = "view" := by
        cases hb : (e.type == "view")
        · rw [hb] at hp; simp at hp
        · exact beq_iff_eq.mp hb
      have hv : e.verified = true := by
        cases hv : e.verified
        · rw [hv] at hp; simp at hp
        · rfl
      have ht := H e hevents hview hv
      match hu : e.userAddress with
      | none => rw [hu] at ht; simp [optTruthy] at ht
      | some s => rfl
    have hsome : (events.filter (fun e =>
        e.type == "view" && e.verified && decide (m ≤ e.notabotScore))).map
          (fun e => e.userAddress) =
        ((events.filter (fun e =>
          e.type == "view" && e.verified && decide (m ≤ e.notabotScore))).map
          (fun e => e.userAddress.getD "")).map some := by
      rw [List.map_map]
      apply List.map_congr_left
      intro e he
      exact hpt e he
    rw [hsome]
    have him : ((((events.filter (fun e =>
        e.type == "view" && e.verified && decide (m ≤ e.notabotScore))).map
          (fun e => e.userAddress.getD "")).map some).toFinset) =
        (((events.filter (fun e =>
          e.type == "view" && e.verified && decide (m ≤ e.notabotScore))).map
          (fun e => e.userAddress.getD "")).toFinset).image some := by
      ext x
      simp [List.mem_map]
    rw [him, Finset.card_image_of_injective _ (Option.some_injective String)]
  · decide

/-- Witness for C2 at the claim's fixture (the general part instantiated; the
fixture satisfies the verified-implies-address hypothesis). -/
theorem reach_distinct_verified_witness :
    (computeReach reachFixture MIN_NOTABOT_SCORE).reach =
      reachSpec reachFixture MIN_NOTABOT_SCORE :=
  reach_distinct_verified.1 reachFixture MIN_NOTABOT_SCORE (by decide)

/-! ## Signature verification and the record endpoint -/

/-- C8: signature verification is total (the model of the catch-all
`try/catch` returns a result for every recovery outcome, including the
exception case): it reports `verified = true` exactly when both inputs are
present and the address recovered from the signature over the canonical
message equals the claimed address case-insensitively; every failure yields
`verified = false` with no address. And on a valid request whose
verification failed, the `/record` route still appends the event to the
chain with `verified = false` and answers HTTP 200 success. -/
theorem signature_verification_safe :
    (∀ (recover : String → String → Except String String)
        (userAddress signature campaignId ty timestamp : String),
      ((verifyEventSignature recover userAddress signature campaignId ty
          timestamp).verified = true ↔
        (userAddress ≠ "" ∧ signature ≠ "" ∧
          ∃ rec, recover (signedMessage campaignId ty timestamp) signature =
            .ok rec ∧ rec.toLower = userAddress.toLower)) ∧
      ((verifyEventSignature recover userAddress signature campaignId ty
          timestamp).verified = false →
        (verifyEventSignature recover userAddress signature campaignId ty
          timestamp).address = none)) ∧
    (∀ (recover : String → String → Except String String) (threshold : Nat)
        (hm : HashModel) (env : Env) (st : FullState) (body : RecordBody),
      body.campaignId ≠ "" → (body.type = "view" ∨ body.type = "click") →
      (verifyEventSignature recover body.userAddress body.signature
        body.campaignId body.type body.timestamp).verified = false →
      ((recordRoute recover threshold hm env st body).2.httpCode = 200 ∧
       (recordRoute recover threshold hm env st body).2.status = "success" ∧
       (recordRoute recover threshold hm env st body).2.verified =
         some false ∧
       ∃ c : ChainedEvent, c.ev.verified = false ∧
         (recordRoute recover threshold hm env st body).2.eventHash =
           some c.hash ∧
         (appendEvent hm st.mem c.ev).1.eventChain =
           st.mem.eventChain ++ [c])) := by
  constructor
  · intro recover userAddress signature campaignId ty timestamp
    constructor
    · by_cases hu : userAddress = ""
      · simp [verifyEventSignature, hu]
      · by_cases hs : signature = ""
        · simp [verifyEventSignature, hu, hs]
        · cases hrec : recover (signedMessage campaignId ty timestamp)
              signature with
          | error err =>
            simp [verifyEventSignature, hu, hs, hrec]
          | ok rec =>
            by_cases hl : rec.toLower = userAddress.toLower
            · simp only [verifyEventSignature, hrec]
              rw [if_neg (by simp [hu, hs]), if_pos hl]
              simp only [true_iff]
              exact ⟨hu, hs, rec, rfl, hl⟩
            · simp only [verifyEventSignature, hrec]
              rw [if_neg (by simp [hu, hs]), if_neg hl]
              simp only [Bool.false_eq_true, false_iff, not_and, not_exists]
              intro _ _ r hr
              injection hr with h
              rw [← h]
              exact hl
    · intro hfalse
      by_cases hu : userAddress = ""
      · simp [verifyEventSignature, hu]
      · by_cases hs : signature = ""
        · simp [verifyEventSignature, hu, hs]
        · cases hrec : recover (signedMessage campaignId ty timestamp)
              signature with
          | error err => simp [verifyEventSignature, hu, hs, hrec]
          | ok rec =>
            by_cases hl : rec.toLower = userAddress.toLower
            · exfalso
              simp only [verifyEventSignature, hrec] at hfalse
              rw [if_neg (by simp [hu, hs]), if_pos hl] at hfalse
              simp at hfalse
            · simp only [verifyEventSignature, hrec]
              rw [if_neg (by simp [hu, hs]), if_neg hl]
  · intro recover threshold hm env st body hcid htype hver
    have hty : body.type ≠ "" := by
      rcases htype with h | h <;> (rw [h]; intro hc; simp at hc)
    have hcond1 : ¬((decide (body.campaignId = "") ||
        decide (body.type = "")) = true) := by
      simp [hcid, hty]
    have hcond2 : ¬(!(body.type == "view" || body.type == "click")) = true := by
      rcases htype with h | h <;> simp [h]
    simp only [recordRoute]
    rw [if_neg hcond1, if_neg hcond2]
    simp only [hver, addEventToChain_snd, Bool.false_eq_true, if_false]
    refine ⟨trivial, trivial, trivial, ?_⟩
    exact ⟨(appendEvent hm st.mem
        { campaignId := body.campaignId
          promotionId := if body.promotionId = "" then "default"
                         else body.promotionId
          type := body.type
          userAddress := none
          verified := false
          notabotScore := body.notabotScore
          timestamp := env.nowIso }).2, rfl, rfl, by simp [appendEvent]⟩

/-- Witness for C8: a malformed signature (recovery throws) on a valid
request still gets a success response with the event chained unverified. -/
theorem signature_verification_safe_witness :
    (recordRoute recoverFail 5 hmEx envEx initialFullState bodyEx).2.httpCode
      = 200 ∧
    (recordRoute recoverFail 5 hmEx envEx initialFullState bodyEx).2.status
      = "success" ∧
    (recordRoute recoverFail 5 hmEx envEx initialFullState bodyEx).2.verified
      = some false ∧
    ∃ c : ChainedEvent, c.ev.verified = false ∧
      (recordRoute recoverFail 5 hmEx envEx
        initialFullState bodyEx).2.eventHash = some c.hash ∧
      (appendEvent hmEx initialFullState.mem c.ev).1.eventChain =
        initialFullState.mem.eventChain ++ [c] :=
  signature_verification_safe.2 recoverFail 5 hmEx envEx initialFullState
    bodyEx (by decide) (Or.inl rfl) (by decide)

/-! ## The contract submission call -/

/-- C3 (failing evaluation): flushing one view event for a campaign with a
contract address, with the gateway enabled and every external system
succeeding, the single contract call binds the reach count (`events.length
= 1`) to `submitBatch`'s fifth parameter — the one documented as the chain
tail hash — while the drained segment's tail hash (the dropped sixth
argument) is transmitted nowhere; formatting that numeric value then raises
the TypeError that the catch turns into a null submission, so no transaction
results even though the chain endpoint would have accepted one. -/
theorem submit_arity_mismatch :
    (flushEvents hmEx envEx stOne).2.2 =
      [{ contractAddress := "0xC", ipfsCID := "Qm1", impressions := 1,
         clicks := 0, lastHashParam := JSVal.num 1 }] ∧
    formatBytes32J (JSVal.num 1) =
      .error "TypeError: hash.startsWith is not a function" ∧
    ((flushEvents hmEx envEx stOne).2.1.map FlushResult.txHash) = [none] ∧
    JSVal.num 1 ≠ JSVal.str stOne.mem.lastHash := by
  refine ⟨by decide, rfl, by decide, by decide⟩
